import Mathlib

/-!
Verification of the generic HTTP request/response pipeline of a GitLab API
client library, together with the repository endpoint bindings
(`gitlab/v4/objects/repositories.py`).

The endpoint bindings (`update_submodule`, `repository_tree`,
`repository_archive`, `repository_changelog`, `repository_create_changelog`,
`repository_raw_blob`) are translated directly from the Python source.  The
generic pipeline (`http_request`, `_build_url`, `http_list`,
`utils.response_content`, array-parameter encoding) is not part of the source
excerpt; those definitions are modelled from the specification text and are
marked as such in their doc comments.
-/

namespace Gitlab

/-- Record of one redirect hop as reported in a response history: the status
of the redirect response, the URL of the request that was redirected, the
target location, and the server reason phrase. -/
structure RedirectRecord where
  status : Nat
  url : String
  location : String
  reason : String
deriving DecidableEq

/-- Outcome of one transport call: HTTP status, redirect history, and the
result of attempting to parse the body as structured JSON data (`none` means
the body is not well-formed; the JSON library itself is external to this
repository, so the parse outcome is carried as a field). -/
structure HttpResponse where
  status : Nat
  history : List RedirectRecord
  parsedBody : Option String
deriving DecidableEq

/-- Modelled from the spec: the set of status codes considered transient, "at
minimum 500/502/503/504 and rate-limit responses". -/
def isTransient (s : Nat) : Bool :=
  decide (s = 500 ∨ s = 502 ∨ s = 503 ∨ s = 504 ∨ s = 429)

/-- Status codes in the 2xx success range. -/
def is2xx (s : Nat) : Bool :=
  decide (200 ≤ s ∧ s < 300)

/-- Modelled from the spec: safe verbs (GET/HEAD) are eligible for automatic
redirect following. -/
def isSafeVerb (verb : String) : Bool :=
  verb == "get" || verb == "head"

/-- Modelled from the spec: the redirect error message includes the original
URL, the destination URL, and the server reason phrase. -/
def redirectMsg (source target reason : String) : String :=
  "Received redirect from " ++ source ++ " to " ++ target ++ " (" ++ reason ++ ")"

/-- Modelled from the spec: for unsafe verbs a redirect is detected via the
response history and surfaced as a distinguished redirect error; for safe
verbs redirects are accepted. -/
def redirectCheck (verb : String) (history : List RedirectRecord) : Option String :=
  if isSafeVerb verb then none
  else history.findSome? (fun item =>
    if item.status == 301 || item.status == 302 then
      some (redirectMsg item.url item.location item.reason)
    else none)

/-- Result of one dispatch: the final response, a typed HTTP error carrying
the final status, or a typed redirect error carrying its message. -/
inductive DispatchOutcome where
  | ok (resp : HttpResponse)
  | httpError (status : Nat)
  | redirectError (msg : String)
deriving DecidableEq

/-- Modelled from the spec: the retry-transient flag is set per call or via a
client-wide default; a per-call override takes precedence. -/
def retryEnabled (override : Option Bool) (clientDefault : Bool) : Bool :=
  override.getD clientDefault

/-- Modelled from the spec: the Dispatcher loop.  `fuel` is the number of
attempts still allowed (the attempt budget on entry), `calls` the number of
transport calls made so far; `transport` gives the response to the i-th call.
Each attempt checks the history for unsafe redirects, returns a 2xx response,
re-issues the request while the status is transient, the retry flag is set
and budget remains, and otherwise raises a typed HTTP error.  The second
component of the result is the total number of transport calls made. -/
def dispatchGo (verb : String) (retry : Bool) (transport : Nat → HttpResponse) :
    Nat → Nat → DispatchOutcome × Nat
  | 0, calls => (DispatchOutcome.httpError 0, calls)
  | fuel + 1, calls =>
    match redirectCheck verb (transport calls).history with
    | some msg => (DispatchOutcome.redirectError msg, calls + 1)
    | none =>
      if is2xx (transport calls).status then (DispatchOutcome.ok (transport calls), calls + 1)
      else if isTransient (transport calls).status && retry && decide (0 < fuel) then
        dispatchGo verb retry transport fuel (calls + 1)
      else (DispatchOutcome.httpError (transport calls).status, calls + 1)

/-- Modelled from the spec: `http_request` dispatches one logical request
with the given attempt budget, starting from zero transport calls. -/
def http_request (verb : String) (override : Option Bool) (clientDefault : Bool)
    (budget : Nat) (transport : Nat → HttpResponse) : DispatchOutcome × Nat :=
  dispatchGo verb (retryEnabled override clientDefault) transport budget 0

/-- Result of a convenience call after response normalization. -/
inductive NormalizedResult where
  | data (v : String)
  | raw (resp : HttpResponse)
  | parsingError
  | httpError (status : Nat)
  | redirectError (msg : String)
deriving DecidableEq

/-- Modelled from the spec: the Response Normalizer.  With the raw flag the
response is returned as-is; otherwise the body is parsed as structured data
and a malformed body raises a typed parsing failure. -/
def normalizeResponse (rawFlag : Bool) (resp : HttpResponse) : NormalizedResult :=
  if rawFlag then NormalizedResult.raw resp
  else
    match resp.parsedBody with
    | some v => NormalizedResult.data v
    | none => NormalizedResult.parsingError

/-- Modelled from the spec: a convenience call for one verb: dispatch, then
normalize on success, or surface the typed error. -/
def httpCall (verb : String) (rawFlag : Bool) (override : Option Bool)
    (clientDefault : Bool) (budget : Nat) (transport : Nat → HttpResponse) :
    NormalizedResult :=
  match http_request verb override clientDefault budget transport with
  | (DispatchOutcome.ok r, _) => normalizeResponse rawFlag r
  | (DispatchOutcome.httpError s, _) => NormalizedResult.httpError s
  | (DispatchOutcome.redirectError m, _) => NormalizedResult.redirectError m

/-- Modelled from the spec: the GET convenience operation. -/
def http_get (rawFlag : Bool) (override : Option Bool) (clientDefault : Bool)
    (budget : Nat) (transport : Nat → HttpResponse) : NormalizedResult :=
  httpCall "get" rawFlag override clientDefault budget transport

/-- Modelled from the spec: the POST convenience operation. -/
def http_post (rawFlag : Bool) (override : Option Bool) (clientDefault : Bool)
    (budget : Nat) (transport : Nat → HttpResponse) : NormalizedResult :=
  httpCall "post" rawFlag override clientDefault budget transport

/-- Modelled from the spec: the PUT convenience operation. -/
def http_put (rawFlag : Bool) (override : Option Bool) (clientDefault : Bool)
    (budget : Nat) (transport : Nat → HttpResponse) : NormalizedResult :=
  httpCall "put" rawFlag override clientDefault budget transport

/-- Substring containment, stated on the underlying character lists. -/
def strContains (s sub : String) : Prop :=
  sub.data <:+: s.data

/-- Suffix containment, stated on the underlying character lists. -/
def strEndsWith (s suf : String) : Prop :=
  suf.data <:+ s.data

/-- Leading-substring test on the underlying character lists (the meaning of
Python `str.startswith`). -/
def strStartsWith (s pre : String) : Bool :=
  pre.data.isPrefixOf s.data

/-- Whether a path is already a full scheme+host URL. -/
def isAbsoluteUrl (path : String) : Bool :=
  strStartsWith path "http://" || strStartsWith path "https://"

/-- Modelled from the spec: the URL Builder.  A path that is already a full
scheme+host URL is returned unchanged; otherwise the path is appended to the
base URL plus the API prefix `/api/v4`. -/
def buildUrl (baseUrl path : String) : String :=
  if isAbsoluteUrl path then path
  else (baseUrl ++ "/api/v4") ++ path

/-- Modelled from the spec: an array-valued parameter expands to repeated
bracketed keys in stable order. -/
def paramPairs (name : String) (values : List String) : List (String × String) :=
  values.map (fun v => (name ++ "[]", v))

/-- Modelled from the spec: the wire encoding of a query as
`k1=v1&k2=v2&...`, ampersand-separated in order. -/
def renderQuery : List (String × String) → String
  | [] => ""
  | [kv] => kv.1 ++ "=" ++ kv.2
  | kv :: rest => kv.1 ++ "=" ++ kv.2 ++ "&" ++ renderQuery rest

/-- Number of (possibly overlapping) occurrences of the pattern `p` starting
at each position of `l`. -/
def countOcc (p : List Char) : List Char → Nat
  | [] => 0
  | c :: l => (if p <+: (c :: l) then 1 else 0) + countOcc p l

/-- Character-list form of the rendered array-parameter query. -/
def renderChars (nm : List Char) : List (List Char) → List Char
  | [] => []
  | v :: rest =>
    (nm ++ '[' :: ']' :: '=' :: v) ++
      (match rest with
       | [] => []
       | _ :: _ => '&' :: renderChars nm rest)

/-- Modelled from the spec: items of a list response (identified by their
position in the dataset). -/
abbrev Item := Nat

/-- Modelled from the spec: the state backing a lazy list result: the items
buffered from the page fetched so far and the total-count header if the
server declared one. -/
structure GitlabListModel where
  buffered : List Item
  total : Option Nat
deriving DecidableEq

/-- Modelled from the spec: the length a lazy list result exposes: the
declared total when known, else the number of buffered items. -/
def glLength (s : GitlabListModel) : Nat :=
  s.total.getD s.buffered.length

/-- Result of a list call: an eagerly materialized list or a lazy cursor. -/
inductive ListResult where
  | asList (items : List Item)
  | lazy (gl : GitlabListModel)
deriving DecidableEq

/-- Length exposed by a list result. -/
def resultLength : ListResult → Nat
  | ListResult.asList items => items.length
  | ListResult.lazy gl => glLength gl

/-- Modelled from the spec: the eager pagination loop.  At each step one page
is fetched (one transport call); a page shorter than the requested page size
(in particular an empty page, also when the dataset is exhausted) stops the
iteration.  Returns the concatenated items and the number of page fetches. -/
def collectPages (perPage : Nat) : List (List Item) → List Item × Nat
  | [] => ([], 1)
  | pg :: rest =>
    if pg.length < perPage then (pg, 1)
    else (pg ++ (collectPages perPage rest).1, (collectPages perPage rest).2 + 1)

/-- Pages fetched in full before the stopping page: the longest prefix of
pages of at least the requested size. -/
def fullPages (perPage : Nat) (pages : List (List Item)) : List (List Item) :=
  pages.takeWhile (fun pg => decide (perPage ≤ pg.length))

/-- The short (or empty) page whose receipt stops the pagination loop. -/
def stopPage (perPage : Nat) (pages : List (List Item)) : List Item :=
  (pages.dropWhile (fun pg => decide (perPage ≤ pg.length))).headD []

/-- Modelled from the spec: `http_list`.  With `as_list` or `all` the pages
are fetched eagerly and materialized; otherwise a lazy cursor over the first
page is returned after a single transport call, remembering the total-count
header.  The second component is the number of transport calls made. -/
def http_list (asList allFlag : Bool) (perPage : Nat) (pages : List (List Item))
    (totalHeader : Option Nat) : ListResult × Nat :=
  if asList || allFlag then
    (ListResult.asList (collectPages perPage pages).1, (collectPages perPage pages).2)
  else
    (ListResult.lazy ⟨pages.headD [], totalHeader⟩, 1)

/-- Modelled from the spec: iterating a body in bounded-size chunks, as the
transport's chunked iteration does for streamed responses. -/
def chunksOf (csize : Nat) (l : List Nat) : List (List Nat) :=
  if h : csize = 0 ∨ l = [] then []
  else l.take csize :: chunksOf csize (l.drop csize)
termination_by l.length
decreasing_by
  push_neg at h
  obtain ⟨h1, h2⟩ := h
  have hl : 0 < l.length := List.length_pos.mpr h2
  simp only [List.length_drop]
  omega

/-- Modelled from the spec: `utils.response_content`.  Non-streamed raw
retrieval returns the complete body; streamed retrieval returns no
materialized value and instead invokes the callback once per chunk — the
second component is the list of chunks passed to the callback, in call
order. -/
def response_content (body : List Nat) (streamed : Bool) (csize : Nat) :
    Option (List Nat) × List (List Nat) :=
  if streamed then (none, chunksOf csize body)
  else (some body, [])

/-- Content retrieval of `repository_raw_blob` (source lines 106-139): the
blob body is fetched raw and handed to `response_content` together with the
streamed flag and chunk size. -/
def repository_raw_blob_content (body : List Nat) (streamed : Bool) (csize : Nat) :
    Option (List Nat) × List (List Nat) :=
  response_content body streamed csize

/-- Content retrieval of `repository_archive` (source lines 191-231): the
archive body is fetched raw and handed to `response_content` together with
the streamed flag and chunk size. -/
def repository_archive_content (body : List Nat) (streamed : Bool) (csize : Nat) :
    Option (List Nat) × List (List Nat) :=
  response_content body streamed csize

/-- Python truthiness of an optional string argument: present and non-empty. -/
def truthyStr : Option String → Bool
  | some s => !(s == "")
  | none => false

/-- A query or post parameter value: a string or a boolean. -/
inductive ParamVal where
  | str (s : String)
  | bool (b : Bool)
deriving DecidableEq

/-- Optional parameter included exactly when the argument is truthy, the
`if arg:` pattern of the Python source. -/
def optParam (name : String) (v : Option String) : List (String × ParamVal) :=
  match v with
  | some s => if s ≠ "" then [(name, ParamVal.str s)] else []
  | none => []

/-- Request descriptor assembled by `repository_archive` (source lines
191-231): the path gains a dot-separated format suffix when `format` is
truthy, the query carries `sha` when `sha` is truthy, and the call is always
raw, with the streamed flag passed through. -/
structure ArchiveRequest where
  path : String
  query : List (String × ParamVal)
  raw : Bool
  streamed : Bool
deriving DecidableEq

/-- Path and query construction of `repository_archive`, translated from the
source: `path = f"/projects/{id}/repository/archive"`, `if format: path +=
"." + format`, `if sha: query_data["sha"] = sha`, and the request is issued
with `raw=True` and the given streamed flag. -/
def repository_archive_request (projectId : String) (sha : Option String)
    (format : Option String) (streamed : Bool) : ArchiveRequest :=
  let path0 := "/projects/" ++ projectId ++ "/repository/archive"
  { path := if truthyStr format then path0 ++ "." ++ format.getD "" else path0
    query := optParam "sha" sha
    raw := true
    streamed := streamed }

/-- Query data of `repository_tree` (source lines 49-80): `recursive` is
always present; `path` and `ref` are added exactly when truthy. -/
def repository_tree_query (path ref : String) (recursive : Bool) :
    List (String × ParamVal) :=
  [("recursive", ParamVal.bool recursive)]
    ++ (if path ≠ "" then [("path", ParamVal.str path)] else [])
    ++ (if ref ≠ "" then [("ref", ParamVal.str ref)] else [])

/-- Query data of `repository_changelog` (source lines 248-298): `version`
is always present; `from`, `to`, `date` and `trailer` are added exactly when
truthy. -/
def repository_changelog_query (version_ : String)
    (from_ to_ date trailer : Option String) : List (String × ParamVal) :=
  [("version", ParamVal.str version_)]
    ++ optParam "from" from_ ++ optParam "to" to_
    ++ optParam "date" date ++ optParam "trailer" trailer

/-- Post data of `repository_create_changelog` (source lines 300-365):
`version` is always present; `from`, `to`, `date`, `branch`, `trailer`,
`file` and `message` are added exactly when truthy. -/
def repository_create_changelog_data (version_ : String)
    (from_ to_ date branch trailer file message : Option String) :
    List (String × ParamVal) :=
  [("version", ParamVal.str version_)]
    ++ optParam "from" from_ ++ optParam "to" to_ ++ optParam "date" date
    ++ optParam "branch" branch ++ optParam "trailer" trailer
    ++ optParam "file" file ++ optParam "message" message

/-- Post data of `update_submodule` (source lines 23-47): `branch` and
`commit_sha` are always present; `commit_message` is added exactly when the
keyword is present in `kwargs` — the source tests key presence
(`"commit_message" in kwargs`), not truthiness. -/
def update_submodule_data (branch commit_sha : String)
    (commit_message : Option String) : List (String × ParamVal) :=
  [("branch", ParamVal.str branch), ("commit_sha", ParamVal.str commit_sha)]
    ++ (match commit_message with
        | some m => [("commit_message", ParamVal.str m)]
        | none => [])

instance (s sub : String) : Decidable (strContains s sub) :=
  inferInstanceAs (Decidable (sub.data <:+: s.data))

instance (s suf : String) : Decidable (strEndsWith s suf) :=
  inferInstanceAs (Decidable (suf.data <:+ s.data))

/-- Transport giving two transient responses followed by a success, as in the
retry tests. -/
def witnessTransport1 : Nat → HttpResponse :=
  fun i => if i < 2 then ⟨500, [], none⟩ else ⟨200, [], some "[]"⟩

/-- Transport answering every call with a 500. -/
def witnessTransport2 : Nat → HttpResponse :=
  fun _ => ⟨500, [], none⟩

/-- Transport answering with a followed 302 redirect recorded in the
response history, as in the redirect tests. -/
def witnessTransport3 : Nat → HttpResponse :=
  fun _ =>
    ⟨200,
     [⟨302, "http://localhost/api/v4/user/status",
       "http://example.com/api/v4/user/status", "Moved Temporarily"⟩],
     some ""⟩

/-- Transport answering 200 with a body that fails to parse as JSON. -/
def witnessTransport4 : Nat → HttpResponse :=
  fun _ => ⟨200, [], none⟩

/-! Helper lemmas about the dispatcher. -/

theorem redirectCheck_nil (verb : String) : redirectCheck verb [] = none := by
  unfold redirectCheck
  split <;> simp

theorem is2xx_eq_false_of_transient {s : Nat} (h : isTransient s = true) :
    is2xx s = false := by
  simp only [isTransient, decide_eq_true_eq] at h
  simp only [is2xx, decide_eq_false_iff_not]
  omega

theorem dispatchGo_skip (verb : String) (transport : Nat → HttpResponse) (k : Nat) :
    ∀ (fuel start : Nat),
      (∀ i, i < k → isTransient (transport (start + i)).status = true ∧
        (transport (start + i)).history = []) →
      k < fuel →
      dispatchGo verb true transport fuel start
        = dispatchGo verb true transport (fuel - k) (start + k) := by
  induction k with
  | zero => intro fuel start _ _; simp
  | succ k ih =>
    intro fuel start h hk
    cases fuel with
    | zero => omega
    | succ f =>
      have h0 := h 0 (Nat.succ_pos k)
      simp only [Nat.add_zero] at h0
      have hne : is2xx (transport start).status = false :=
        is2xx_eq_false_of_transient h0.1
      have hf : 0 < f := by omega
      have hrec : dispatchGo verb true transport (f + 1) start
          = dispatchGo verb true transport f (start + 1) := by
        simp only [dispatchGo]
        rw [h0.2, redirectCheck_nil]
        simp [hne, h0.1, hf]
      rw [hrec]
      have hstep := ih f (start + 1)
        (fun i hi => by
          have hx := h (i + 1) (by omega)
          have hidx : start + (i + 1) = start + 1 + i := by omega
          rw [hidx] at hx
          exact hx)
        (by omega)
      rw [hstep]
      have e1 : f + 1 - (k + 1) = f - k := by omega
      have e2 : start + (k + 1) = start + 1 + k := by omega
      rw [e1, e2]

/-- C1: for every sequence of transient statuses (500/502/503/504 or
rate-limit) ending in a success status within the attempt budget, a dispatch
with the retry-transient flag enabled returns the final response, and the
number of transport calls made equals the number of attempts taken. -/
theorem retry_returns_final_response (verb : String) (override : Option Bool)
    (clientDefault : Bool) (budget k : Nat) (transport : Nat → HttpResponse)
    (hretry : retryEnabled override clientDefault = true)
    (hk : k < budget)
    (htrans : ∀ i, i < k → isTransient (transport i).status = true ∧
      (transport i).history = [])
    (hok : is2xx (transport k).status = true)
    (hh : (transport k).history = []) :
    http_request verb override clientDefault budget transport
      = (DispatchOutcome.ok (transport k), k + 1) := by
  unfold http_request
  rw [hretry]
  have hs := dispatchGo_skip verb transport k budget 0
    (fun i hi => by simpa using htrans i hi) hk
  simp only [Nat.zero_add] at hs
  rw [hs]
  obtain ⟨m, hm⟩ : ∃ m, budget - k = m + 1 := ⟨budget - k - 1, by omega⟩
  rw [hm]
  simp only [dispatchGo]
  rw [hh, redirectCheck_nil]
  simp [hok]

/-- Witness for C1: two 500 responses then a 200, with retry enabled and a
budget of 10, return the 200 after exactly 3 transport calls. -/
theorem retry_returns_final_response_witness :
    http_request "get" (some true) false 10 witnessTransport1
      = (DispatchOutcome.ok (witnessTransport1 2), 3) :=
  retry_returns_final_response "get" (some true) false 10 2 witnessTransport1
    rfl (by decide) (by decide) (by decide) (by decide)

/-- C2: when every attempt yields a transient status the Dispatcher raises a
typed HTTP error after exactly the attempt budget of transport calls; with
retrying disabled (no per-call flag and no client default, or an explicit
per-call override to disabled) a transient status makes exactly one transport
call and raises immediately. -/
theorem retry_exhaustion_and_disabled (verb : String) (override : Option Bool)
    (clientDefault : Bool) (budget : Nat) (transport : Nat → HttpResponse)
    (hb : 0 < budget)
    (htrans : ∀ i, i < budget → isTransient (transport i).status = true ∧
      (transport i).history = []) :
    (retryEnabled override clientDefault = true →
      http_request verb override clientDefault budget transport
        = (DispatchOutcome.httpError (transport (budget - 1)).status, budget)) ∧
    (∀ ov2 d2, retryEnabled ov2 d2 = false →
      http_request verb ov2 d2 budget transport
        = (DispatchOutcome.httpError (transport 0).status, 1)) ∧
    retryEnabled none false = false ∧
    retryEnabled (some false) clientDefault = false := by
  refine ⟨?_, ?_, rfl, rfl⟩
  · intro hr
    unfold http_request
    rw [hr]
    have hs := dispatchGo_skip verb transport (budget - 1) budget 0
      (fun i hi => by simpa using htrans i (by omega)) (by omega)
    simp only [Nat.zero_add] at hs
    rw [hs]
    have hone : budget - (budget - 1) = 1 := by omega
    rw [hone]
    have h0 := htrans (budget - 1) (by omega)
    simp only [dispatchGo]
    rw [h0.2, redirectCheck_nil]
    simp [is2xx_eq_false_of_transient h0.1, Nat.sub_add_cancel hb]
  · intro ov2 d2 hr
    unfold http_request
    rw [hr]
    obtain ⟨m, hm⟩ : ∃ m, budget = m + 1 := ⟨budget - 1, by omega⟩
    rw [hm]
    have h0 := htrans 0 hb
    simp only [dispatchGo]
    rw [h0.2, redirectCheck_nil]
    simp [is2xx_eq_false_of_transient h0.1]

/-- Witness for C2: a transport that always answers 500, budget 10: with
retry enabled all 10 attempts are made and an HTTP error is raised; with
retry unset it raises after exactly one call. -/
theorem retry_exhaustion_and_disabled_witness :
    (http_request "get" (some true) false 10 witnessTransport2
      = (DispatchOutcome.httpError (witnessTransport2 9).status, 10)) ∧
    (http_request "get" none false 10 witnessTransport2
      = (DispatchOutcome.httpError (witnessTransport2 0).status, 1)) := by
  have h := retry_exhaustion_and_disabled "get" (some true) false 10 witnessTransport2
    (by decide) (by decide)
  exact ⟨h.1 rfl, h.2.1 none false rfl⟩

/-- C3: a GET request whose response followed a 302 redirect (recorded in the
history) completes successfully; a PUT/POST/DELETE request whose response
followed a 302 raises a distinguished redirect error whose message contains
the original URL, the destination URL and the server reason phrase, and the
redirect is never silently accepted. -/
theorem redirect_handling (override : Option Bool) (clientDefault : Bool)
    (budget : Nat) (transport : Nat → HttpResponse) (src loc reason : String)
    (hb : 0 < budget)
    (hh : (transport 0).history = [⟨302, src, loc, reason⟩])
    (hs : is2xx (transport 0).status = true) :
    http_request "get" override clientDefault budget transport
      = (DispatchOutcome.ok (transport 0), 1) ∧
    (∀ verb, verb = "put" ∨ verb = "post" ∨ verb = "delete" →
      http_request verb override clientDefault budget transport
        = (DispatchOutcome.redirectError (redirectMsg src loc reason), 1)) ∧
    strContains (redirectMsg src loc reason) src ∧
    strContains (redirectMsg src loc reason) loc ∧
    strContains (redirectMsg src loc reason) reason := by
  obtain ⟨m, hm⟩ : ∃ m, budget = m + 1 := ⟨budget - 1, by omega⟩
  refine ⟨?_, ?_, ?_, ?_, ?_⟩
  · unfold http_request
    rw [hm]
    simp only [dispatchGo]
    rw [hh]
    simp [redirectCheck, isSafeVerb, hs]
  · intro verb hv
    have hsafe : isSafeVerb verb = false := by
      rcases hv with rfl | rfl | rfl <;> rfl
    unfold http_request
    rw [hm]
    simp only [dispatchGo]
    rw [hh]
    simp [redirectCheck, hsafe]
  · exact ⟨"Received redirect from ".data,
      (" to " ++ loc ++ " (" ++ reason ++ ")").data,
      by simp [redirectMsg, String.data_append]⟩
  · exact ⟨("Received redirect from " ++ src ++ " to ").data,
      (" (" ++ reason ++ ")").data,
      by simp [redirectMsg, String.data_append]⟩
  · exact ⟨("Received redirect from " ++ src ++ " to " ++ loc ++ " (").data,
      ")".data,
      by simp [redirectMsg, String.data_append]⟩

/-- Witness for C3: the redirect recorded by the tests, from
`http://localhost/api/v4/user/status` to
`http://example.com/api/v4/user/status` with reason `Moved Temporarily`: GET
succeeds, PUT raises the redirect error after one call. -/
theorem redirect_handling_witness :
    http_request "get" none false 10 witnessTransport3
      = (DispatchOutcome.ok (witnessTransport3 0), 1) ∧
    http_request "put" none false 10 witnessTransport3
      = (DispatchOutcome.redirectError
          (redirectMsg "http://localhost/api/v4/user/status"
            "http://example.com/api/v4/user/status" "Moved Temporarily"), 1) := by
  have h := redirect_handling none false 10 witnessTransport3
    "http://localhost/api/v4/user/status" "http://example.com/api/v4/user/status"
    "Moved Temporarily" (by decide) rfl (by decide)
  exact ⟨h.1, h.2.1 "put" (Or.inl rfl)⟩

/-- C4: a 2xx response whose body is not well-formed JSON makes a non-raw
dispatch raise a typed parsing failure, distinct from an HTTP error (and from
a redirect error), uniformly for the GET, POST and PUT convenience
operations. -/
theorem malformed_json_parsing_error (override : Option Bool)
    (clientDefault : Bool) (budget : Nat) (transport : Nat → HttpResponse)
    (hb : 0 < budget)
    (hs : is2xx (transport 0).status = true)
    (hh : (transport 0).history = [])
    (hp : (transport 0).parsedBody = none) :
    http_get false override clientDefault budget transport
      = NormalizedResult.parsingError ∧
    http_post false override clientDefault budget transport
      = NormalizedResult.parsingError ∧
    http_put false override clientDefault budget transport
      = NormalizedResult.parsingError ∧
    (∀ s, NormalizedResult.parsingError ≠ NormalizedResult.httpError s) ∧
    (∀ m, NormalizedResult.parsingError ≠ NormalizedResult.redirectError m) := by
  have key : ∀ verb, httpCall verb false override clientDefault budget transport
      = NormalizedResult.parsingError := by
    intro verb
    unfold httpCall http_request
    obtain ⟨m, hm⟩ : ∃ m, budget = m + 1 := ⟨budget - 1, by omega⟩
    rw [hm]
    simp only [dispatchGo]
    rw [hh, redirectCheck_nil]
    simp [hs, normalizeResponse, hp]
  refine ⟨key "get", key "post", key "put", ?_, ?_⟩
  · intro s h
    exact NormalizedResult.noConfusion h
  · intro m h
    exact NormalizedResult.noConfusion h

/-- Witness for C4: a 200 response whose body fails to parse yields the
parsing failure for GET, POST and PUT. -/
theorem malformed_json_parsing_error_witness :
    http_get false none false 10 witnessTransport4
      = NormalizedResult.parsingError ∧
    http_post false none false 10 witnessTransport4
      = NormalizedResult.parsingError ∧
    http_put false none false 10 witnessTransport4
      = NormalizedResult.parsingError := by
  have h := malformed_json_parsing_error none false 10 witnessTransport4
    (by decide) (by decide) rfl rfl
  exact ⟨h.1, h.2.1, h.2.2.1⟩

/-- C5 (amended): the URL builder returns the path unchanged when it is
already an absolute URL; a non-absolute path is appended to the base URL plus
the API prefix, inserted exactly once by the builder, and the result then
contains the API version segment. -/
theorem build_url_amended (baseUrl path : String) :
    (isAbsoluteUrl path = true → buildUrl baseUrl path = path) ∧
    (isAbsoluteUrl path = false →
      buildUrl baseUrl path = (baseUrl ++ "/api/v4") ++ path ∧
      strContains (buildUrl baseUrl path) "/api/v4") := by
  constructor
  · intro h
    simp [buildUrl, h]
  · intro h
    have hb : buildUrl baseUrl path = (baseUrl ++ "/api/v4") ++ path := by
      simp [buildUrl, h]
    refine ⟨hb, ?_⟩
    rw [hb]
    exact ⟨baseUrl.data, path.data, by simp [String.data_append]⟩

/-- C5 counterexample: an absolute URL is returned unchanged even when it
lacks the API version segment, and a separator-leading path that already
contains the API prefix is double-prefixed, so neither constraint of the
claim holds for every target path. -/
theorem build_url_counterexample :
    buildUrl "http://localhost" "http://localhost/projects"
      = "http://localhost/projects" ∧
    ¬ strContains "http://localhost/projects" "/api/v4" ∧
    buildUrl "http://localhost" "/api/v4/projects"
      = "http://localhost/api/v4/api/v4/projects" ∧
    countOcc "/api/v4".data
      (buildUrl "http://localhost" "/api/v4/projects").data = 2 := by
  refine ⟨by decide, by decide, by decide, by decide⟩

/-- Witness for C5: the relative path of the tests is prefixed exactly once
and the result contains the API version segment. -/
theorem build_url_amended_witness :
    buildUrl "http://localhost" "/projects"
      = ("http://localhost" ++ "/api/v4") ++ "/projects" ∧
    strContains (buildUrl "http://localhost" "/projects") "/api/v4" :=
  (build_url_amended "http://localhost" "/projects").2 (by decide)

/-! Helper lemmas about occurrence counting, used for the array-parameter
encoding property. -/

theorem not_prefix_of_getElem (p nm r l : List Char) (hp : p = nm ++ '[' :: r)
    (hl : l[nm.length]? ≠ some '[') : ¬ p <+: l := by
  intro hpre
  obtain ⟨t, ht⟩ := hpre
  apply hl
  rw [← ht, List.getElem?_append]
  have hlen : nm.length < p.length := by
    subst hp
    simp [List.length_append]
  rw [if_pos hlen, hp, List.getElem?_append_right (le_refl nm.length)]
  simp

theorem countOcc_append_no_occ (p : List Char) :
    ∀ (a b : List Char), (∀ i, i < a.length → ¬ p <+: (a.drop i ++ b)) →
      countOcc p (a ++ b) = countOcc p b
  | [], b, _ => by simp
  | c :: a, b, h => by
    have h0 := h 0 (Nat.succ_pos _)
    simp only [List.drop_zero, List.cons_append] at h0
    simp only [List.cons_append, countOcc, List.append_eq]
    rw [if_neg h0, Nat.zero_add]
    exact countOcc_append_no_occ p a b (fun i hi => by
      have hx := h (i + 1) (Nat.succ_lt_succ hi)
      simpa using hx)

theorem countOcc_eq_zero (p : List Char) (a : List Char)
    (h : ∀ i, i < a.length → ¬ p <+: a.drop i) : countOcc p a = 0 := by
  have hx := countOcc_append_no_occ p a [] (fun i hi => by simpa using h i hi)
  simpa [countOcc] using hx

theorem getElem_ne_of_tail (x y : List Char) (j : Nat) (hy : '[' ∉ y)
    (h1 : x.length ≤ j) : (x ++ y)[j]? ≠ some '[' := by
  intro hc
  rw [List.getElem?_append_right h1] at hc
  exact hy (List.getElem?_mem hc)

theorem getElem_ne_of_window (x y z : List Char) (j : Nat) (hy : '[' ∉ y)
    (h1 : x.length ≤ j) (h2 : j < x.length + y.length) :
    (x ++ (y ++ z))[j]? ≠ some '[' := by
  intro hc
  rw [List.getElem?_append_right h1, List.getElem?_append,
    if_pos (show j - x.length < y.length by omega)] at hc
  exact hy (List.getElem?_mem hc)

theorem renderChars_shape (nm w : List Char) (rest2 : List (List Char)) :
    ∃ tail, renderChars nm (w :: rest2) = nm ++ '[' :: tail := by
  cases rest2 with
  | nil => exact ⟨']' :: '=' :: w, by simp [renderChars]⟩
  | cons x xs =>
    exact ⟨']' :: '=' :: (w ++ '&' :: renderChars nm (x :: xs)), by simp [renderChars]⟩

theorem countOcc_renderChars (nm : List Char) (hne : nm ≠ []) (hbr : '[' ∉ nm) :
    ∀ (values : List (List Char)), (∀ v ∈ values, '[' ∉ v) →
      countOcc (nm ++ ['[', ']', '=']) (renderChars nm values) = values.length
  | [], _ => by simp [renderChars, countOcc]
  | v :: rest, hv => by
    have hvbr : '[' ∉ v := hv v (List.mem_cons_self v rest)
    have hrest : ∀ w ∈ rest, '[' ∉ w := fun w hw => hv w (List.mem_cons_of_mem v hw)
    obtain ⟨c, nmt, hc⟩ : ∃ c nmt, nm = c :: nmt := by
      cases nm with
      | nil => exact absurd rfl hne
      | cons c nmt => exact ⟨c, nmt, rfl⟩
    have hbrt : '[' ∉ nmt := by
      intro hx
      exact hbr (by rw [hc]; exact List.mem_cons_of_mem c hx)
    have hcbr : c ≠ '[' := by
      intro hx
      apply hbr
      rw [hc, hx]
      exact List.mem_cons_self _ _
    cases rest with
    | nil =>
      have hflat : renderChars nm [v] = c :: (nmt ++ '[' :: ']' :: '=' :: v) := by
        simp [renderChars, hc]
      have hpv : c :: (nmt ++ '[' :: ']' :: '=' :: v)
          = (nm ++ ['[', ']', '=']) ++ v := by
        simp [hc]
      rw [hflat]
      simp only [countOcc]
      rw [if_pos (by rw [hpv]; exact List.prefix_append _ _)]
      have hz : countOcc (nm ++ ['[', ']', '=']) (nmt ++ '[' :: ']' :: '=' :: v) = 0 := by
        apply countOcc_eq_zero
        intro i hi
        apply not_prefix_of_getElem _ nm ([']', '=']) _ (by simp)
        have hsplit : nmt ++ '[' :: ']' :: '=' :: v
            = (nmt ++ ['[']) ++ ([']', '='] ++ v) := by
          simp
        rw [List.getElem?_drop, hsplit]
        apply getElem_ne_of_tail
        · simp [hvbr]
        · simp only [hc, List.length_append, List.length_cons, List.length_nil]
          omega
      rw [hz]
      rfl
    | cons w rest2 =>
      have hflat : renderChars nm (v :: w :: rest2)
          = c :: ((nmt ++ '[' :: ']' :: '=' :: (v ++ ['&'])) ++ renderChars nm (w :: rest2)) := by
        simp [renderChars, hc]
      have hpre : (nm ++ ['[', ']', '='])
          <+: c :: ((nmt ++ '[' :: ']' :: '=' :: (v ++ ['&'])) ++ renderChars nm (w :: rest2)) := by
        have he : c :: ((nmt ++ '[' :: ']' :: '=' :: (v ++ ['&'])) ++ renderChars nm (w :: rest2))
            = (nm ++ ['[', ']', '=']) ++ (v ++ '&' :: renderChars nm (w :: rest2)) := by
          simp [hc]
        rw [he]
        exact List.prefix_append _ _
      rw [hflat]
      simp only [countOcc]
      rw [if_pos hpre]
      have hz : countOcc (nm ++ ['[', ']', '='])
          ((nmt ++ '[' :: ']' :: '=' :: (v ++ ['&'])) ++ renderChars nm (w :: rest2))
          = countOcc (nm ++ ['[', ']', '=']) (renderChars nm (w :: rest2)) := by
        apply countOcc_append_no_occ
        intro i hi
        apply not_prefix_of_getElem _ nm ([']', '=']) _ (by simp)
        have hdrop : (nmt ++ '[' :: ']' :: '=' :: (v ++ ['&'])).drop i ++ renderChars nm (w :: rest2)
            = ((nmt ++ '[' :: ']' :: '=' :: (v ++ ['&'])) ++ renderChars nm (w :: rest2)).drop i := by
          rw [List.drop_append_of_le_length (le_of_lt hi)]
        rw [hdrop, List.getElem?_drop]
        obtain ⟨tail, htail⟩ := renderChars_shape nm w rest2
        have hsplit : (nmt ++ '[' :: ']' :: '=' :: (v ++ ['&'])) ++ renderChars nm (w :: rest2)
            = (nmt ++ ['[']) ++ (([']', '='] ++ (v ++ '&' :: nm)) ++ ('[' :: tail)) := by
          rw [htail]
          simp [hc]
        rw [hsplit]
        apply getElem_ne_of_window
        · simp [hvbr, hbrt, hc, hcbr.symm]
        · simp only [hc, List.length_append, List.length_cons, List.length_nil]
          omega
        · simp only [hc, List.length_append, List.length_cons, List.length_nil] at hi ⊢
          omega
      rw [hz, countOcc_renderChars nm hne hbr (w :: rest2) hrest]
      simp only [List.length_cons]
      omega

theorem renderQuery_paramPairs (name : String) :
    ∀ (values : List String),
      (renderQuery (paramPairs name values)).data
        = renderChars name.data (values.map String.data)
  | [] => rfl
  | v :: rest => by
    cases rest with
    | nil =>
      simp [paramPairs, renderQuery, renderChars, String.data_append,
        show "[]".data = ['[', ']'] from rfl, show "=".data = ['='] from rfl]
    | cons w rest2 =>
      have ih := renderQuery_paramPairs name (w :: rest2)
      simp only [paramPairs, List.map_cons] at ih
      simp [paramPairs, renderQuery, renderChars, String.data_append, ih,
        show "[]".data = ['[', ']'] from rfl, show "=".data = ['='] from rfl,
        show "&".data = ['&'] from rfl]

/-- C6: for an array-valued parameter bound to an ordered sequence of n
scalar values, the parameter expands to n bracketed pairs, one per value in
original order, and the encoded query string contains exactly n occurrences
of `name[]=` (for a non-empty name, with no stray bracket characters in the
name or the rendered scalar values). -/
theorem array_param_encoding (name : String) (values : List String)
    (hne : name.data ≠ []) (hbr : '[' ∉ name.data)
    (hv : ∀ v ∈ values, '[' ∉ v.data) :
    (paramPairs name values).length = values.length ∧
    (paramPairs name values).map Prod.snd = values ∧
    (renderQuery (paramPairs name values)).data
      = renderChars name.data (values.map String.data) ∧
    countOcc (name ++ "[]=").data (renderQuery (paramPairs name values)).data
      = values.length := by
  refine ⟨by simp [paramPairs], by simp [paramPairs],
    renderQuery_paramPairs name values, ?_⟩
  rw [renderQuery_paramPairs name values]
  have hdata : (name ++ "[]=").data = name.data ++ ['[', ']', '='] := by
    rw [String.data_append]
  rw [hdata]
  rw [countOcc_renderChars name.data hne hbr (values.map String.data)
    (fun w hw => by
      obtain ⟨v, hvm, rfl⟩ := List.mem_map.mp hw
      exact hv v hvm)]
  simp

/-- Witness for C6: the array parameter of the tests, `array_var` bound to
three values, yields three pairs and exactly three occurrences of
`array_var[]=` in the rendered query. -/
theorem array_param_encoding_witness :
    (paramPairs "array_var" ["1", "2", "3"]).length = 3 ∧
    (paramPairs "array_var" ["1", "2", "3"]).map Prod.snd = ["1", "2", "3"] ∧
    (renderQuery (paramPairs "array_var" ["1", "2", "3"])).data
      = renderChars "array_var".data (["1", "2", "3"].map String.data) ∧
    countOcc ("array_var" ++ "[]=").data
      (renderQuery (paramPairs "array_var" ["1", "2", "3"])).data = 3 :=
  array_param_encoding "array_var" ["1", "2", "3"] (by decide) (by decide) (by decide)

/-! Helper lemmas about pagination and chunked streaming. -/

theorem collectPages_spec (perPage : Nat) :
    ∀ (pages : List (List Item)),
      collectPages perPage pages
        = ((fullPages perPage pages).flatten ++ stopPage perPage pages,
           (fullPages perPage pages).length + 1)
  | [] => by simp [collectPages, fullPages, stopPage]
  | pg :: rest => by
    by_cases h : pg.length < perPage
    · have hp : decide (perPage ≤ pg.length) = false := by
        simp
        omega
      simp [collectPages, fullPages, stopPage, h, List.takeWhile_cons,
        List.dropWhile_cons, hp]
    · have hp : decide (perPage ≤ pg.length) = true := by
        simp
        omega
      simp [collectPages, fullPages, stopPage, h, List.takeWhile_cons,
        List.dropWhile_cons, hp, collectPages_spec perPage rest]

/-- C7: over a single-page dataset of size k, a list call with `as_list=True`
and one with `as_list=False` both expose a sequence of length k; with
`all=True` the call makes one transport call per page until the first short
or empty page, and the eagerly materialized result is the in-order
concatenation of the fetched pages. -/
theorem pagination_modes (perPage perPage2 k : Nat) (pg : List Item)
    (pages : List (List Item)) (hk : pg.length = k) (hshort : pg.length < perPage) :
    resultLength (http_list true false perPage [pg] (some k)).1 = k ∧
    (http_list true false perPage [pg] (some k)).2 = 1 ∧
    resultLength (http_list false false perPage [pg] (some k)).1 = k ∧
    (http_list false false perPage [pg] (some k)).2 = 1 ∧
    http_list false true perPage2 pages none
      = (ListResult.asList
          ((fullPages perPage2 pages).flatten ++ stopPage perPage2 pages),
         (fullPages perPage2 pages).length + 1) := by
  subst hk
  refine ⟨?_, ?_, ?_, ?_, ?_⟩
  · simp [http_list, collectPages, hshort, resultLength]
  · simp [http_list, collectPages, hshort]
  · simp [http_list, resultLength, glLength]
  · simp [http_list]
  · simp [http_list, collectPages_spec perPage2 pages]

/-- Witness for C7: a one-item page with page size 20 exposes length 1 in
both modes, and an `all=True` fetch over two full pages and a short third
page makes 3 calls and concatenates the pages in order. -/
theorem pagination_modes_witness :
    resultLength (http_list true false 20 [[0]] (some 1)).1 = 1 ∧
    (http_list true false 20 [[0]] (some 1)).2 = 1 ∧
    resultLength (http_list false false 20 [[0]] (some 1)).1 = 1 ∧
    (http_list false false 20 [[0]] (some 1)).2 = 1 ∧
    http_list false true 2 [[1, 2], [3, 4], [5]] none
      = (ListResult.asList
          ((fullPages 2 [[1, 2], [3, 4], [5]]).flatten ++ stopPage 2 [[1, 2], [3, 4], [5]]),
         (fullPages 2 [[1, 2], [3, 4], [5]]).length + 1) := by
  have h1 := pagination_modes 20 2 1 [0] [[1, 2], [3, 4], [5]] (by decide) (by decide)
  exact h1

theorem chunksOf_flatten (csize : Nat) (hc : 0 < csize) (l : List Nat) :
    (chunksOf csize l).flatten = l := by
  by_cases h : csize = 0 ∨ l = []
  · rw [chunksOf, dif_pos h]
    rcases h with h | h
    · exact absurd h (by omega)
    · simp [h]
  · rw [chunksOf, dif_neg h]
    push_neg at h
    have ih := chunksOf_flatten csize hc (l.drop csize)
    simp only [List.flatten_cons]
    rw [ih, List.take_append_drop]
termination_by l.length
decreasing_by
  push_neg at h
  simp only [List.length_drop]
  have hl : 0 < l.length := List.length_pos.mpr h.2
  omega

theorem chunksOf_le (csize : Nat) (l : List Nat) :
    ∀ c ∈ chunksOf csize l, c.length ≤ csize := by
  by_cases h : csize = 0 ∨ l = []
  · rw [chunksOf, dif_pos h]
    simp
  · rw [chunksOf, dif_neg h]
    push_neg at h
    intro c hmem
    rcases List.mem_cons.mp hmem with rfl | hmem2
    · rw [List.length_take]
      exact inf_le_left
    · exact chunksOf_le csize (l.drop csize) c hmem2
termination_by l.length
decreasing_by
  push_neg at h
  simp only [List.length_drop]
  have hl : 0 < l.length := List.length_pos.mpr h.2
  omega

/-- C8: for a positive chunk size, streamed retrieval of a blob or archive
returns no materialized value and passes chunks of at most the chunk size to
the callback, one callback invocation per chunk, and the concatenation of the
chunks equals the body returned by the non-streamed retrieval of the same
resource. -/
theorem streamed_retrieval (body : List Nat) (csize : Nat) (hc : 0 < csize) :
    (repository_raw_blob_content body false csize).1 = some body ∧
    (repository_raw_blob_content body true csize).1 = none ∧
    (∀ c ∈ (repository_raw_blob_content body true csize).2, c.length ≤ csize) ∧
    ((repository_raw_blob_content body true csize).2.flatten
      = ((repository_raw_blob_content body false csize).1.getD []) ∧
    repository_archive_content body true csize
      = repository_raw_blob_content body true csize ∧
    (repository_archive_content body true csize).1 = none ∧
    ((repository_archive_content body true csize).2.flatten
      = ((repository_archive_content body false csize).1.getD []))) := by
  refine ⟨rfl, rfl, ?_, ?_, rfl, rfl, ?_⟩
  · intro c hmem
    exact chunksOf_le csize body c (by
      simpa [repository_raw_blob_content, response_content] using hmem)
  · simp [repository_raw_blob_content, response_content, chunksOf_flatten csize hc body]
  · simp [repository_archive_content, response_content, chunksOf_flatten csize hc body]

/-- Witness for C8: a ten-byte body streamed with chunk size 4 yields chunks
of at most 4 whose concatenation is the full body, and no materialized
return value. -/
theorem streamed_retrieval_witness :
    (repository_raw_blob_content [0, 1, 2, 3, 4, 5, 6, 7, 8, 9] false 4).1
      = some [0, 1, 2, 3, 4, 5, 6, 7, 8, 9] ∧
    (repository_raw_blob_content [0, 1, 2, 3, 4, 5, 6, 7, 8, 9] true 4).1 = none ∧
    (∀ c ∈ (repository_raw_blob_content [0, 1, 2, 3, 4, 5, 6, 7, 8, 9] true 4).2,
      c.length ≤ 4) ∧
    ((repository_raw_blob_content [0, 1, 2, 3, 4, 5, 6, 7, 8, 9] true 4).2.flatten
      = ((repository_raw_blob_content [0, 1, 2, 3, 4, 5, 6, 7, 8, 9] false 4).1.getD [])) := by
  have h := streamed_retrieval [0, 1, 2, 3, 4, 5, 6, 7, 8, 9] 4 (by decide)
  exact ⟨h.1, h.2.1, h.2.2.1, h.2.2.2.1⟩

/-! Helper lemma for optional-parameter key lists. -/

theorem optParam_keys (n : String) (v : Option String) :
    (optParam n v).map Prod.fst = if truthyStr v then [n] else [] := by
  cases v with
  | none => simp [optParam, truthyStr]
  | some s =>
    by_cases h : s = "" <;> simp [optParam, truthyStr, h]

theorem mem_ite_singleton (x n : String) (b : Bool) :
    (x ∈ if b then [n] else []) ↔ (b = true ∧ x = n) := by
  cases b <;> simp

/-- C9 (amended): an archive request path gains the dot-separated format
suffix exactly when the format argument is truthy (a supplied empty string,
being falsy, appends nothing), the query carries `sha` exactly when the sha
argument is truthy, and the raw flag is always set with the streamed flag
passed through. -/
theorem archive_request_shape (projectId : String) (sha format : Option String)
    (streamed : Bool) :
    (truthyStr format = true →
      (repository_archive_request projectId sha format streamed).path
        = ("/projects/" ++ projectId ++ "/repository/archive") ++ "." ++ format.getD "" ∧
      strEndsWith (repository_archive_request projectId sha format streamed).path
        ("." ++ format.getD "")) ∧
    (truthyStr format = false →
      (repository_archive_request projectId sha format streamed).path
        = "/projects/" ++ projectId ++ "/repository/archive") ∧
    (("sha" ∈ (repository_archive_request projectId sha format streamed).query.map Prod.fst)
      ↔ truthyStr sha = true) ∧
    (repository_archive_request projectId sha format streamed).raw = true ∧
    (repository_archive_request projectId sha format streamed).streamed = streamed := by
  refine ⟨?_, ?_, ?_, rfl, rfl⟩
  · intro h
    have hpath : (repository_archive_request projectId sha format streamed).path
        = ("/projects/" ++ projectId ++ "/repository/archive") ++ "." ++ format.getD "" := by
      simp [repository_archive_request, h]
    refine ⟨hpath, ?_⟩
    rw [hpath]
    refine ⟨("/projects/" ++ projectId ++ "/repository/archive").data, ?_⟩
    simp [String.data_append]
  · intro h
    simp [repository_archive_request, h]
  · rw [show (repository_archive_request projectId sha format streamed).query
        = optParam "sha" sha from rfl, optParam_keys, mem_ite_singleton]
    simp

/-- C9 counterexample: with the format argument supplied as the empty string
the source appends no suffix at all, so the path does not end with a dot
followed by the format, contradicting the claim that the suffix appears
exactly when a format argument is supplied. -/
theorem archive_format_counterexample :
    (repository_archive_request "1" none (some "") false).path
      = "/projects/1/repository/archive" ∧
    ¬ strEndsWith (repository_archive_request "1" none (some "") false).path
        ("." ++ "") := by
  constructor
  · rfl
  · decide

/-- Witness for C9: a truthy format `tar.gz` makes the path end in `.tar.gz`. -/
theorem archive_request_shape_witness :
    (repository_archive_request "1" (some "abc") (some "tar.gz") true).path
      = ("/projects/" ++ "1" ++ "/repository/archive") ++ "." ++ (some "tar.gz").getD "" ∧
    strEndsWith (repository_archive_request "1" (some "abc") (some "tar.gz") true).path
      ("." ++ (some "tar.gz").getD "") :=
  (archive_request_shape "1" (some "abc") (some "tar.gz") true).1 (by decide)

/-- C10 (amended): for `repository_tree`, `repository_changelog` and
`repository_create_changelog` every optional string parameter is included in
the outgoing request exactly when the argument is truthy (present and
non-empty), and `recursive` is always sent; `update_submodule` includes
`commit_message` exactly when the keyword argument is present, even when it
is the empty string. -/
theorem optional_param_inclusion :
    (∀ (path ref : String) (recursive : Bool),
      ("recursive" ∈ (repository_tree_query path ref recursive).map Prod.fst) ∧
      (("path" ∈ (repository_tree_query path ref recursive).map Prod.fst) ↔ path ≠ "") ∧
      (("ref" ∈ (repository_tree_query path ref recursive).map Prod.fst) ↔ ref ≠ "")) ∧
    (∀ (version_ : String) (from_ to_ date trailer : Option String),
      ("version" ∈ (repository_changelog_query version_ from_ to_ date trailer).map Prod.fst) ∧
      (("from" ∈ (repository_changelog_query version_ from_ to_ date trailer).map Prod.fst)
        ↔ truthyStr from_ = true) ∧
      (("to" ∈ (repository_changelog_query version_ from_ to_ date trailer).map Prod.fst)
        ↔ truthyStr to_ = true) ∧
      (("date" ∈ (repository_changelog_query version_ from_ to_ date trailer).map Prod.fst)
        ↔ truthyStr date = true) ∧
      (("trailer" ∈ (repository_changelog_query version_ from_ to_ date trailer).map Prod.fst)
        ↔ truthyStr trailer = true)) ∧
    (∀ (version_ : String) (from_ to_ date branch trailer file message : Option String),
      (("from" ∈ (repository_create_changelog_data version_ from_ to_ date branch trailer file message).map Prod.fst)
        ↔ truthyStr from_ = true) ∧
      (("to" ∈ (repository_create_changelog_data version_ from_ to_ date branch trailer file message).map Prod.fst)
        ↔ truthyStr to_ = true) ∧
      (("date" ∈ (repository_create_changelog_data version_ from_ to_ date branch trailer file message).map Prod.fst)
        ↔ truthyStr date = true) ∧
      (("branch" ∈ (repository_create_changelog_data version_ from_ to_ date branch trailer file message).map Prod.fst)
        ↔ truthyStr branch = true) ∧
      (("trailer" ∈ (repository_create_changelog_data version_ from_ to_ date branch trailer file message).map Prod.fst)
        ↔ truthyStr trailer = true) ∧
      (("file" ∈ (repository_create_changelog_data version_ from_ to_ date branch trailer file message).map Prod.fst)
        ↔ truthyStr file = true) ∧
      (("message" ∈ (repository_create_changelog_data version_ from_ to_ date branch trailer file message).map Prod.fst)
        ↔ truthyStr message = true)) ∧
    (∀ (branch commit_sha : String) (commit_message : Option String),
      ("branch" ∈ (update_submodule_data branch commit_sha commit_message).map Prod.fst) ∧
      ("commit_sha" ∈ (update_submodule_data branch commit_sha commit_message).map Prod.fst) ∧
      (("commit_message" ∈ (update_submodule_data branch commit_sha commit_message).map Prod.fst)
        ↔ commit_message.isSome)) := by
  refine ⟨?_, ?_, ?_, ?_⟩
  · intro path ref recursive
    refine ⟨?_, ?_, ?_⟩
    · simp [repository_tree_query]
    · by_cases h : path = "" <;> simp [repository_tree_query, h]
    · by_cases h : ref = "" <;> simp [repository_tree_query, h]
  · intro version_ from_ to_ date trailer
    refine ⟨?_, ?_, ?_, ?_, ?_⟩ <;>
      simp [repository_changelog_query, optParam_keys, mem_ite_singleton]
  · intro version_ from_ to_ date branch trailer file message
    refine ⟨?_, ?_, ?_, ?_, ?_, ?_, ?_⟩ <;>
      simp [repository_create_changelog_data, optParam_keys, mem_ite_singleton]
  · intro branch commit_sha commit_message
    refine ⟨?_, ?_, ?_⟩
    · simp [update_submodule_data]
    · simp [update_submodule_data]
    · cases commit_message <;> simp [update_submodule_data]

/-- C10 counterexample: `update_submodule` called with `commit_message` as
the empty string includes the parameter although it is not truthy, so the
claim that an empty string is silently omitted fails. -/
theorem commit_message_counterexample :
    ("commit_message" ∈ (update_submodule_data "main" "abc123" (some "")).map Prod.fst) ∧
    truthyStr (some "") = false := by
  constructor
  · simp [update_submodule_data]
  · rfl

end Gitlab
